import Mathlib

/-!
Verification of the kvdb key-value service: a shallow embedding of its
protobuf data model (`src/pb`), storage backends (`src/storage`), command
and topic services (`src/service`) and frame codec (`src/network/frame.rs`),
with theorems settling the frozen specification claims.

Rust side conventions used throughout:
* `DashMap`/`DashSet` and plain maps become association lists
  (`List (key × value)`), with lookup/insert/remove helpers below;
* fallible code (`Result<_, KvError>`) becomes `Except KvError _`;
* interior mutability becomes explicit state passing: an operation on a
  store returns the result together with the updated store;
* machine integers are `Nat` with explicit `% 2 ^ w` where wrap-around
  matters (the `AtomicU32` subscription counter, `u32` casts in the frame
  header); bytes are `Nat` (always `< 256` in practice);
* `f64` payloads are represented by their bit pattern (a `Nat`), since no
  claim computes with floats.
-/

namespace Kvdb

/-! ### Association-list helpers (model of `DashMap` / `sled::Db`) -/

/-- Look up the first binding of key `k`. -/
def getKV {α β : Type} [DecidableEq α] : List (α × β) → α → Option β
  | [], _ => none
  | (k', v) :: rest, k => if k' = k then some v else getKV rest k

/-- Insert or replace the binding of key `k` (replaces the first
occurrence in place, appends when absent), like `DashMap::insert`. -/
def setKV {α β : Type} [DecidableEq α] : List (α × β) → α → β → List (α × β)
  | [], k, v => [(k, v)]
  | (k', v') :: rest, k, v =>
    if k' = k then (k, v) :: rest else (k', v') :: setKV rest k v

/-- Remove every binding of key `k`, like `DashMap::remove` (keys are
unique in a `DashMap`, so removing all occurrences is the same entry). -/
def delKV {α β : Type} [DecidableEq α] (l : List (α × β)) (k : α) : List (α × β) :=
  l.filter (fun p => !decide (p.1 = k))

/-- Membership of an element in a set, model of `DashSet::insert`. -/
def insertSet {α : Type} [DecidableEq α] (s : List α) (a : α) : List α :=
  if a ∈ s then s else s ++ [a]

/-- Model of `DashSet::remove`. -/
def removeSet {α : Type} [DecidableEq α] (s : List α) (a : α) : List α :=
  s.filter (fun x => !decide (x = a))

theorem getKV_setKV_self {α β : Type} [DecidableEq α] (l : List (α × β)) (k : α) (v : β) :
    getKV (setKV l k v) k = some v := by
  induction l with
  | nil => simp [getKV, setKV]
  | cons p rest ih =>
    by_cases h : p.1 = k
    · simp [setKV, getKV, h]
    · simpa [setKV, getKV, h] using ih

theorem getKV_setKV_ne {α β : Type} [DecidableEq α] (l : List (α × β)) (k x : α) (v : β)
    (hx : x ≠ k) : getKV (setKV l k v) x = getKV l x := by
  have hkx : ¬(k = x) := fun h => hx h.symm
  induction l with
  | nil => simp [getKV, setKV, hkx]
  | cons p rest ih =>
    by_cases h : p.1 = k
    · subst h
      simp [setKV, getKV, hkx]
    · by_cases h2 : p.1 = x <;> simp [setKV, getKV, h, h2, hkx, hx, ih]

theorem getKV_delKV_self {α β : Type} [DecidableEq α] (l : List (α × β)) (k : α) :
    getKV (delKV l k) k = none := by
  induction l with
  | nil => simp [getKV, delKV]
  | cons p rest ih =>
    by_cases h : p.1 = k
    · simpa [delKV, List.filter_cons, h, getKV] using ih
    · simp only [delKV, List.filter_cons] at ih ⊢
      simp [h, getKV] at ih ⊢
      exact ih

theorem getKV_delKV_ne {α β : Type} [DecidableEq α] (l : List (α × β)) (k x : α)
    (hx : x ≠ k) : getKV (delKV l k) x = getKV l x := by
  have hkx : ¬(k = x) := fun h => hx h.symm
  induction l with
  | nil => simp [getKV, delKV]
  | cons p rest ih =>
    simp only [delKV, List.filter_cons] at ih ⊢
    by_cases h : p.1 = k
    · have hpx : ¬(p.1 = x) := by
        rw [h]; exact fun h2 => hx h2.symm
      simp [h, getKV, hpx, hkx, ih]
    · by_cases h2 : p.1 = x <;> simp [h, getKV, h2, hx, hkx, ih]

/-! ### Wire schema data model (`src/pb/abi.rs`, `src/pb/mod.rs`) -/

/-- `value::Value`, the oneof payload of a `Value`.  The `f64` of the
`Float` variant is carried as its bit pattern. -/
inductive ValueData where
  | Str (s : String)
  | Binary (b : List Nat)
  | Integer (i : Int)
  | Float (bits : Nat)
  | Boolean (b : Bool)
deriving DecidableEq, Repr

/-- `Value { oneof value }`; a missing payload is `none`. -/
structure Value where
  value : Option ValueData
deriving DecidableEq, Repr

/-- `Value::default()`: the empty-variant value. -/
def Value.defaultVal : Value := ⟨none⟩

/-- `From<i64> for Value`. -/
def Value.ofInt (i : Int) : Value := ⟨some (.Integer i)⟩

/-- `From<&str> for Value`. -/
def Value.ofStr (s : String) : Value := ⟨some (.Str s)⟩

/-- `Kvpair { key, value }`. -/
structure Kvpair where
  key : String
  value : Option Value
deriving DecidableEq, Repr

/-- `CommandResponse { status, message, values, pairs }`. -/
structure CommandResponse where
  status : Nat
  message : String
  values : List Value
  pairs : List Kvpair
deriving DecidableEq, Repr

/-- `CommandResponse::default()`: the status-0 empty sentinel. -/
def CommandResponse.defaultRes : CommandResponse := ⟨0, "", [], []⟩

/-- `CommandResponse::ok()`: status 200, no payload. -/
def CommandResponse.okRes : CommandResponse := ⟨200, "", [], []⟩

/-- `impl From<Value> for CommandResponse`: status 200, single value. -/
def CommandResponse.fromValue (v : Value) : CommandResponse := ⟨200, "", [v], []⟩

/-- `impl From<Vec<Kvpair>> for CommandResponse`: status 200 and `pairs`. -/
def CommandResponse.fromPairs (ps : List Kvpair) : CommandResponse := ⟨200, "", [], ps⟩

/-- `impl From<Vec<Value>> for CommandResponse` (src/pb/mod.rs):
`Self { values, ..Default::default() }` — note the status is left at the
default `0`, unlike the sibling `From<Value>` impl. -/
def CommandResponse.fromValues (vs : List Value) : CommandResponse := ⟨0, "", vs, []⟩

/-! ### Errors (`src/error.rs`) -/

/-- `KvError`.  External error payloads (`prost`, `sled`, `std::io`,
TLS) are carried as strings. -/
inductive KvError where
  | NotFound (what : String)
  | InvalidCommand (detail : String)
  | ConvertCommand (from_ : String) (target : String)
  | StorageError (op : String) (table : String) (key : String) (detail : String)
  | EncodeError (detail : String)
  | DecodeError (detail : String)
  | SledError (detail : String)
  | Internal (detail : String)
  | IOError (detail : String)
  | FrameTooLarge
  | CertificateParseError (a : String) (b : String)
  | TlsError (detail : String)
deriving DecidableEq, Repr

/-- The `thiserror` display string of each `KvError` variant. -/
def KvError.toMessage : KvError → String
  | .NotFound what => "Not found " ++ what
  | .InvalidCommand detail => "Cannot parse command: `" ++ detail ++ "`"
  | .ConvertCommand from_ target => "Cannot convert value " ++ from_ ++ " to " ++ target
  | .StorageError op table key detail =>
    "Cannot process command " ++ op ++ " with table: " ++ table ++ ", key: " ++ key ++
      ". Error: " ++ detail
  | .EncodeError detail => "Failed to encode protobuf message: " ++ detail
  | .DecodeError detail => "Failed to decode protobuf message: " ++ detail
  | .SledError detail => "Sled error: " ++ detail
  | .Internal detail => "Internal error: " ++ detail
  | .IOError detail => "I/O error: " ++ detail
  | .FrameTooLarge => "Frame is large than max size"
  | .CertificateParseError a b => "Failed to parse certificate: " ++ a ++ " " ++ b
  | .TlsError _ => "TLS error"

/-- `impl From<KvError> for CommandResponse`: 500 by default, 404 for
`NotFound`, 400 for `InvalidCommand` / `ConvertCommand`; the message is
the error's display string. -/
def CommandResponse.fromError (e : KvError) : CommandResponse :=
  let status : Nat :=
    match e with
    | .NotFound _ => 404
    | .InvalidCommand _ => 400
    | .ConvertCommand _ _ => 400
    | _ => 500
  ⟨status, e.toMessage, [], []⟩

/-! ### Requests (`src/pb/abi.rs`) -/

structure Hget where
  table : String
  key : String
deriving DecidableEq, Repr

structure Hgetall where
  table : String
deriving DecidableEq, Repr

structure Hmget where
  table : String
  keys : List String
deriving DecidableEq, Repr

structure Hset where
  table : String
  pair : Option Kvpair
deriving DecidableEq, Repr

structure Hmset where
  table : String
  pairs : List Kvpair
deriving DecidableEq, Repr

structure Hdel where
  table : String
  key : String
deriving DecidableEq, Repr

structure Hmdel where
  table : String
  keys : List String
deriving DecidableEq, Repr

structure Hexist where
  table : String
  key : String
deriving DecidableEq, Repr

structure Hmexist where
  table : String
  keys : List String
deriving DecidableEq, Repr

structure Subscribe where
  topic : String
deriving DecidableEq, Repr

structure Unsubscribe where
  topic : String
  id : Nat
deriving DecidableEq, Repr

structure Publish where
  topic : String
  values : List Value
deriving DecidableEq, Repr

/-- `command_request::RequestData`, the twelve-way oneof. -/
inductive RequestData where
  | Hget (req : Hget)
  | Hgetall (req : Hgetall)
  | Hmget (req : Hmget)
  | Hset (req : Hset)
  | Hmset (req : Hmset)
  | Hdel (req : Hdel)
  | Hmdel (req : Hmdel)
  | Hexist (req : Hexist)
  | Hmexist (req : Hmexist)
  | Subscribe (req : Subscribe)
  | Unsubscribe (req : Unsubscribe)
  | Publish (req : Publish)
deriving DecidableEq, Repr

structure CommandRequest where
  request_data : Option RequestData
deriving DecidableEq, Repr

/-! ### Memory storage backend (`src/storage/memory.rs`)

A `MemTable` is a `DashMap<String, DashMap<String, Value>>`.  Every
operation goes through `get_or_create_table`, which inserts an empty
table on first touch, so each operation returns the updated `MemTable`
alongside its `Result`. -/

structure MemTable where
  tables : List (String × List (String × Value))
deriving DecidableEq, Repr

def MemTable.newTable : MemTable := ⟨[]⟩

/-- `MemTable::get_or_create_table`. -/
def MemTable.get_or_create_table (m : MemTable) (name : String) :
    List (String × Value) × MemTable :=
  match getKV m.tables name with
  | some t => (t, m)
  | none => ([], ⟨setKV m.tables name []⟩)

/-- `Storage::get` for `MemTable` (never errors). -/
def MemTable.get (m : MemTable) (table key : String) :
    Except KvError (Option Value) × MemTable :=
  let (t, m') := m.get_or_create_table table
  (.ok (getKV t key), m')

/-- `Storage::set` for `MemTable`: returns the previous value. -/
def MemTable.set (m : MemTable) (table key : String) (value : Value) :
    Except KvError (Option Value) × MemTable :=
  let (t, m') := m.get_or_create_table table
  (.ok (getKV t key), ⟨setKV m'.tables table (setKV t key value)⟩)

/-- `Storage::contains` for `MemTable`. -/
def MemTable.containsKV (m : MemTable) (table key : String) :
    Except KvError Bool × MemTable :=
  let (t, m') := m.get_or_create_table table
  (.ok (getKV t key).isSome, m')

/-- `Storage::del` for `MemTable`: returns the removed value. -/
def MemTable.del (m : MemTable) (table key : String) :
    Except KvError (Option Value) × MemTable :=
  let (t, m') := m.get_or_create_table table
  (.ok (getKV t key), ⟨setKV m'.tables table (delKV t key)⟩)

/-- `Storage::get_all` for `MemTable`. -/
def MemTable.get_all (m : MemTable) (table : String) :
    Except KvError (List Kvpair) × MemTable :=
  let (t, m') := m.get_or_create_table table
  (.ok (t.map (fun p => ⟨p.1, some p.2⟩)), m')

/-! ### Command handlers (`src/service/command_service.rs`) -/

/-- `impl CommandService for Hget`.  Note: this revision of
`command_service.rs` builds `KvError::NotFound(table, key)` while
`error.rs` declares `NotFound(String)`; the two fields are modelled as
their concatenation — no claim depends on this message's exact text. -/
def Hget.execute (req : Hget) (store : MemTable) : CommandResponse × MemTable :=
  match store.get req.table req.key with
  | (.ok (some v), s') => (CommandResponse.fromValue v, s')
  | (.ok none, s') => (CommandResponse.fromError (.NotFound (req.table ++ " " ++ req.key)), s')
  | (.error e, s') => (CommandResponse.fromError e, s')

/-- `impl CommandService for Hset`: a missing pair yields the default
value; otherwise the pair's value (or `Value::default()` when absent) is
stored and the previous value (or the default) is returned. -/
def Hset.execute (req : Hset) (store : MemTable) : CommandResponse × MemTable :=
  match req.pair with
  | none => (CommandResponse.fromValue Value.defaultVal, store)
  | some p =>
    match store.set req.table p.key (p.value.getD Value.defaultVal) with
    | (.ok (some v), s') => (CommandResponse.fromValue v, s')
    | (.ok none, s') => (CommandResponse.fromValue Value.defaultVal, s')
    | (.error e, s') => (CommandResponse.fromError e, s')

/-- `impl CommandService for Hgetall`. -/
def Hgetall.execute (req : Hgetall) (store : MemTable) : CommandResponse × MemTable :=
  match store.get_all req.table with
  | (.ok v, s') => (CommandResponse.fromPairs v, s')
  | (.error e, s') => (CommandResponse.fromError e, s')

/-- `dispatch` (src/service/mod.rs): routes `Hget`/`Hset`/`Hgetall` to
their handlers, maps a missing oneof to `InvalidCommand`, and returns
the default (status-0) sentinel response for every other variant so the
caller falls through to `dispatch_stream`. -/
def dispatch (cmd : CommandRequest) (store : MemTable) : CommandResponse × MemTable :=
  match cmd.request_data with
  | some (.Hget req) => req.execute store
  | some (.Hset req) => req.execute store
  | some (.Hgetall req) => req.execute store
  | none => (CommandResponse.fromError (.InvalidCommand "Request has not data"), store)
  | _ => (CommandResponse.defaultRes, store)

/-! ### Persistent storage backend (`src/storage/sleddb.rs`)

The sled tree is a map from the composite key string `"{table}:{key}"`
to the `prost`-encoded bytes of the stored `Value`.  The `prost`
encoding itself lives in an external crate, so it is a parameter: a
`ValueCodec` carries `Value::encode_to_vec` and `Value::decode`
(`TryFrom<&[u8]> for Value`), and theorems assume their round-trip only
at the values they touch. -/

/-- The sled tree contents: composite key → stored bytes. -/
def SledTree : Type := List (String × List Nat)

/-- The external `prost` codec for `Value` bytes (`encode_to_vec` /
`Value::decode`); a decode failure is a `prost::DecodeError` payload. -/
structure ValueCodec where
  enc : Value → List Nat
  dec : List Nat → Except String Value

/-- `SledDb::get_full_key`. -/
def get_full_key (table key : String) : String := table ++ ":" ++ key

/-- `TryFrom<&[u8]> for Value` lifted to `KvError` (`decode(data)?`). -/
def ValueCodec.tryIntoValue (c : ValueCodec) (bytes : List Nat) : Except KvError Value :=
  match c.dec bytes with
  | .ok v => .ok v
  | .error e => .error (.DecodeError e)

/-- `Storage::get` for `SledDb`: look up the composite key and decode. -/
def SledDb.get (c : ValueCodec) (db : SledTree) (table key : String) :
    Except KvError (Option Value) :=
  match getKV db (get_full_key table key) with
  | none => .ok none
  | some bytes =>
    match c.tryIntoValue bytes with
    | .ok v => .ok (some v)
    | .error e => .error e

/-- `Storage::set` for `SledDb`: insert the encoded value under the
composite key; the previous bytes, if any, are decoded and returned. -/
def SledDb.set (c : ValueCodec) (db : SledTree) (table : String) (key : String)
    (value : Value) : Except KvError (Option Value) × SledTree :=
  let name := get_full_key table key
  let data := c.enc value
  let old := getKV db name
  let res : Except KvError (Option Value) :=
    match old with
    | none => .ok none
    | some bytes =>
      match c.tryIntoValue bytes with
      | .ok v => .ok (some v)
      | .error e => .error e
  (res, setKV db name data)

/-- `Storage::contains` for `SledDb`. -/
def SledDb.containsKV (db : SledTree) (table key : String) : Except KvError Bool :=
  .ok (getKV db (get_full_key table key)).isSome

/-- `Storage::del` for `SledDb`: remove the composite key, decoding and
returning the removed bytes. -/
def SledDb.del (c : ValueCodec) (db : SledTree) (table key : String) :
    Except KvError (Option Value) × SledTree :=
  let name := get_full_key table key
  let res : Except KvError (Option Value) :=
    match getKV db name with
    | none => .ok none
    | some bytes =>
      match c.tryIntoValue bytes with
      | .ok v => .ok (some v)
      | .error e => .error e
  (res, delKV db name)

/-! ### Topic broadcaster (`src/service/topic.rs`)

`Broadcaster` holds the `topics : DashMap<String, DashSet<u32>>` and
`subscriptions : DashMap<u32, mpsc::Sender<…>>` maps.  A subscription's
bounded channel is modelled by the list of messages enqueued on it plus
a `closed` flag (the receiver was dropped); `tokio::mpsc::Sender::send`
awaits when full and fails exactly when the receiver is gone, so a send
appends when `closed = false` and fails when `closed = true`.  The
process-wide `NEXT_ID : AtomicU32` counter (initial value 1) is carried
in the state as `nextId`; `fetch_add(1)` wraps at `2 ^ 32`. -/

/-- One subscriber's channel endpoint state. -/
structure Subscription where
  queue : List CommandResponse
  closed : Bool
deriving DecidableEq, Repr

structure Broadcaster where
  topics : List (String × List Nat)
  subscriptions : List (Nat × Subscription)
  nextId : Nat
deriving DecidableEq, Repr

/-- `Broadcaster::default()` in a fresh process (`NEXT_ID` at 1). -/
def Broadcaster.fresh : Broadcaster := ⟨[], [], 1⟩

/-- The "id message" pushed onto a new subscriber's channel: a 200
response whose sole value is the integer id (`(id as i64).into()`). -/
def idMessage (id : Nat) : CommandResponse :=
  CommandResponse.fromValue (Value.ofInt (Int.ofNat id))

/-- `Topic::subscribe` for `Arc<Broadcaster>`: create-or-get the topic
entry, allocate the next id (`fetch_add`, wrapping at `2 ^ 32`), insert
it into the topic's set, create the capacity-128 channel whose first
message is the id message, and record the sender. -/
def Broadcaster.subscribe (b : Broadcaster) (name : String) : Nat × Broadcaster :=
  let ids := (getKV b.topics name).getD []
  let id := b.nextId
  let topics' := setKV b.topics name (insertSet ids id)
  let subs' := setKV b.subscriptions id ⟨[idMessage id], false⟩
  (id, ⟨topics', subs', (b.nextId + 1) % 2 ^ 32⟩)

/-- `Broadcaster::remove_subscription`: drop `id` from the named
topic's set (removing the topic entry if the set becomes empty), then
remove and return `id` from `subscriptions`. -/
def Broadcaster.remove_subscription (b : Broadcaster) (name : String) (id : Nat) :
    Option Nat × Broadcaster :=
  let topics' :=
    match getKV b.topics name with
    | none => b.topics
    | some ids =>
      let ids' := removeSet ids id
      if ids' = [] then delKV b.topics name else setKV b.topics name ids'
  let removed := (getKV b.subscriptions id).map (fun _ => id)
  (removed, ⟨topics', delKV b.subscriptions id, b.nextId⟩)

/-- Modelled from the spec: the erroring revision of
`Topic::unsubscribe`.  The `topic.rs` in src/ keeps the unit-returning
variant, but `topic_service.rs` and its tests match on a
`Result<_, KvError>` whose error case is the 404 `NotFound` carrying
`"subscription {id}"` (test: message contains
`"Not found subscription 121233"`); per the spec it returns success if
the subscription existed and that `NotFound` error otherwise, built on
`remove_subscription`. -/
def Broadcaster.unsubscribeChecked (b : Broadcaster) (name : String) (id : Nat) :
    Except KvError Nat × Broadcaster :=
  match b.remove_subscription name id with
  | (some rid, b') => (.ok rid, b')
  | (none, b') => (.error (.NotFound ("subscription " ++ toString id)), b')

/-- One fan-out step of `Topic::publish`: look up `id`'s sender and try
to enqueue `res`; a failed send (receiver dropped) marks `id` for
reaping.  The accumulator is (subscriptions, reap list). -/
def sendStep (res : CommandResponse) (acc : List (Nat × Subscription) × List Nat)
    (id : Nat) : List (Nat × Subscription) × List Nat :=
  match getKV acc.1 id with
  | none => acc
  | some s =>
    if s.closed then (acc.1, acc.2 ++ [id])
    else (setKV acc.1 id ⟨s.queue ++ [res], false⟩, acc.2)

/-- `Topic::publish` for `Arc<Broadcaster>` (the spawned fan-out task,
run to completion): snapshot the topic's subscriber ids, attempt to
enqueue `res` for each, then `remove_subscription` every id whose send
failed. -/
def Broadcaster.publish (b : Broadcaster) (name : String) (res : CommandResponse) :
    Broadcaster :=
  match getKV b.topics name with
  | none => b
  | some ids =>
    let fan := ids.foldl (sendStep res) (b.subscriptions, [])
    fan.2.foldl (fun acc id => (acc.remove_subscription name id).2)
      ⟨b.topics, fan.1, b.nextId⟩

/-! ### Topic services and dispatch (`src/service/topic_service.rs`,
`src/service/mod.rs`) -/

/-- What a `StreamingResponse` yields: either the subscription's
receiver stream (identified by its id) or a one-element stream. -/
inductive StreamDesc where
  | subscription (id : Nat)
  | single (res : CommandResponse)
deriving DecidableEq, Repr

/-- `impl TopicService for Subscribe`. -/
def Subscribe.execute (req : Subscribe) (topic : Broadcaster) : StreamDesc × Broadcaster :=
  let (id, b') := topic.subscribe req.topic
  (.subscription id, b')

/-- `impl TopicService for Unsubscribe`: `ok()` on success, the error
response otherwise, as a one-element stream. -/
def Unsubscribe.execute (req : Unsubscribe) (topic : Broadcaster) :
    StreamDesc × Broadcaster :=
  match topic.unsubscribeChecked req.topic req.id with
  | (.ok _, b') => (.single CommandResponse.okRes, b')
  | (.error e, b') => (.single (CommandResponse.fromError e), b')

/-- `impl TopicService for Publish`: fan out
`self.values.into()` (the status-0 `From<Vec<Value>>` response) and
answer the publisher with a single `ok()`. -/
def Publish.execute (req : Publish) (topic : Broadcaster) : StreamDesc × Broadcaster :=
  (.single CommandResponse.okRes,
    topic.publish req.topic (CommandResponse.fromValues req.values))

/-- `dispatch_stream` (src/service/mod.rs): `none` models the
`unreachable!()` panic of the catch-all arm. -/
def dispatch_stream (cmd : CommandRequest) (topic : Broadcaster) :
    Option (StreamDesc × Broadcaster) :=
  match cmd.request_data with
  | some (.Subscribe req) => some (req.execute topic)
  | some (.Unsubscribe req) => some (req.execute topic)
  | some (.Publish req) => some (req.execute topic)
  | _ => none

/-- The outcome of `Service::execute`: a unary response, a response
stream, or a panic (the `unreachable!()` in `dispatch_stream`). -/
inductive ExecOutcome where
  | unary (res : CommandResponse)
  | stream (s : StreamDesc)
  | panicked
deriving DecidableEq, Repr

/-- `Service::execute`: run `dispatch`; if it produced the default
sentinel response, fall through to `dispatch_stream`; otherwise apply
the `on_before_send` hooks (the only hooks that can affect the modelled
state — the others observe through shared references) and yield the
unary response. -/
def Service.execute (beforeSend : List (CommandResponse → CommandResponse))
    (cmd : CommandRequest) (store : MemTable) (b : Broadcaster) :
    ExecOutcome × MemTable × Broadcaster :=
  let (res, store') := dispatch cmd store
  if res = CommandResponse.defaultRes then
    match dispatch_stream cmd b with
    | some (s, b') => (.stream s, store', b')
    | none => (.panicked, store', b)
  else
    (.unary (beforeSend.foldl (fun r f => f r) res), store', b)

/-! ### Frame codec (`src/network/frame.rs`)

A frame is a 4-byte big-endian header followed by the payload.  The
`prost` schema codec and the `flate2` gzip codec are external crates and
therefore parameters (`FrameCodec`): `enc`/`dec` are
`Message::encode`/`Message::decode` (with `encoded_len = (enc m).length`,
which `prost` guarantees), `gzipC` is the `GzEncoder` at default
compression and `gzipD` the `GzDecoder`.  Bytes are `Nat`s; the `usize`
bit operations of the source are on 64-bit words. -/

def LEN_LEN : Nat := 4

/-- `MAX_FRAME`: 2 GiB exactly. -/
def MAX_FRAME : Nat := 2 * 1024 * 1024 * 1024

def COMPRESSION_LIMIT : Nat := 1436

/-- `COMPRESSION_BIT : usize = 1 << 31`. -/
def COMPRESSION_BIT : Nat := 2 ^ 31

/-- `!COMPRESSION_BIT` on a 64-bit `usize`. -/
def COMPRESSION_MASK : Nat := COMPRESSION_BIT ^^^ (2 ^ 64 - 1)

/-- `BufMut::put_u32`: the 4 big-endian bytes of a `u32`. -/
def u32BE (x : Nat) : List Nat :=
  [x / 2 ^ 24 % 256, x / 2 ^ 16 % 256, x / 2 ^ 8 % 256, x % 256]

/-- The external message / gzip codecs a `FrameCoder` impl is built on. -/
structure FrameCodec (M : Type) where
  enc : M → List Nat
  dec : List Nat → Except String M
  gzipC : List Nat → List Nat
  gzipD : List Nat → Except String (List Nat)

/-- `decode_header`: mask off bit 31 for the length, test bit 31 for the
compression flag. -/
def decode_header (header : Nat) : Nat × Bool :=
  (header &&& COMPRESSION_MASK, header &&& COMPRESSION_BIT == COMPRESSION_BIT)

/-- `FrameCoder::encode_frame` on a fresh buffer: fail `FrameTooLarge`
at or above `MAX_FRAME`; above `COMPRESSION_LIMIT` gzip the encoding and
write `(compressed_len | COMPRESSION_BIT) as u32` big-endian, else write
the plain length and the encoding. -/
def encode_frame {M : Type} (c : FrameCodec M) (m : M) : Except KvError (List Nat) :=
  let size := (c.enc m).length
  if size ≥ MAX_FRAME then .error .FrameTooLarge
  else if size > COMPRESSION_LIMIT then
    let payload := c.gzipC (c.enc m)
    .ok (u32BE ((payload.length ||| COMPRESSION_BIT) % 2 ^ 32) ++ payload)
  else
    .ok (u32BE (size % 2 ^ 32) ++ c.enc m)

/-- `FrameCoder::decode_frame`: read the 4-byte header, split it with
`decode_header`, gunzip when flagged, decode the schema message, and
advance the buffer past the payload.  A buffer shorter than the header
or payload would make the `bytes` crate panic; that is modelled as an
`Internal "buffer underflow"` error (no claim exercises it). -/
def decode_frame {M : Type} (c : FrameCodec M) (buf : List Nat) :
    Except KvError (M × List Nat) :=
  match buf with
  | b0 :: b1 :: b2 :: b3 :: rest =>
    let header := b0 * 2 ^ 24 + b1 * 2 ^ 16 + b2 * 2 ^ 8 + b3
    let hd := decode_header header
    let len := hd.1
    if hd.2 then
      if len ≤ rest.length then
        match c.gzipD (rest.take len) with
        | .ok inflated =>
          match c.dec inflated with
          | .ok m => .ok (m, rest.drop len)
          | .error e => .error (.DecodeError e)
        | .error e => .error (.IOError e)
      else .error (.Internal "buffer underflow")
    else
      if len ≤ rest.length then
        match c.dec (rest.take len) with
        | .ok m => .ok (m, rest.drop len)
        | .error e => .error (.DecodeError e)
      else .error (.Internal "buffer underflow")
  | _ => .error (.Internal "buffer underflow")

/-! ### Bitwise bridge lemmas for the frame header -/

theorem testBit_add_two_pow (n i : Nat) (hn : n < 2 ^ 31) :
    (n + 2 ^ 31).testBit i = (n.testBit i || decide (i = 31)) := by
  rcases lt_trichotomy i 31 with hi | hi | hi
  · have hne : ¬(i = 31) := by omega
    have hsplit : (2 : Nat) ^ 31 = 2 ^ (31 - i) * 2 ^ i := by
      rw [← pow_add]
      congr 1
      omega
    have hdiv : (n + 2 ^ 31) / 2 ^ i = n / 2 ^ i + 2 ^ (31 - i) := by
      rw [hsplit, Nat.add_mul_div_right _ _ (Nat.pos_pow_of_pos i (by norm_num))]
    have heven : 2 ^ (31 - i) % 2 = 0 := by
      have h1 : 31 - i = (30 - i) + 1 := by omega
      rw [h1, pow_succ]
      exact Nat.mul_mod_left _ 2
    have hmod : (n / 2 ^ i + 2 ^ (31 - i)) % 2 = n / 2 ^ i % 2 := by omega
    rw [Nat.testBit_to_div_mod, Nat.testBit_to_div_mod, hdiv]
    simp [hne, hmod]
  · subst hi
    have h1 : (n + 2 ^ 31) / 2 ^ 31 = 1 := by
      rw [Nat.add_div_right _ (Nat.pos_pow_of_pos _ (by norm_num))]
      rw [Nat.div_eq_of_lt hn]
    rw [Nat.testBit_to_div_mod, h1]
    simp
  · have h2i : (2 : Nat) ^ 32 ≤ 2 ^ i := Nat.pow_le_pow_right (by norm_num) (by omega)
    have hlt : n + 2 ^ 31 < 2 ^ i := by
      have h232 : (2 : Nat) ^ 32 = 2 ^ 31 + 2 ^ 31 := by norm_num
      omega
    have hlt2 : n < 2 ^ i := by omega
    rw [Nat.testBit_lt_two_pow hlt, Nat.testBit_lt_two_pow hlt2]
    have hne : ¬(i = 31) := by omega
    simp [hne]

theorem lor_two_pow_eq_add (n : Nat) (hn : n < 2 ^ 31) :
    n ||| 2 ^ 31 = n + 2 ^ 31 := by
  apply Nat.eq_of_testBit_eq
  intro i
  rw [Nat.testBit_lor, testBit_add_two_pow n i hn, Nat.testBit_two_pow]
  by_cases h : i = 31
  · simp [h]
  · have h2 : ¬(31 = i) := fun hh => h hh.symm
    simp [h, h2]

theorem land_mask_eq_mod (h : Nat) (hh : h < 2 ^ 32) :
    h &&& COMPRESSION_MASK = h % 2 ^ 31 := by
  apply Nat.eq_of_testBit_eq
  intro i
  rw [Nat.testBit_land, Nat.testBit_mod_two_pow]
  unfold COMPRESSION_MASK COMPRESSION_BIT
  rw [Nat.testBit_xor, Nat.testBit_two_pow, Nat.testBit_two_pow_sub_one]
  rcases lt_trichotomy i 31 with hi | hi | hi
  · have h1 : ¬(31 = i) := by omega
    have h2 : i < 64 := by omega
    simp [h1, h2, hi]
  · subst hi
    simp
  · have h1 : ¬(31 = i) := by omega
    have h4 : ¬(i < 31) := by omega
    by_cases h2 : i < 64
    · have hbit : h.testBit i = false :=
        Nat.testBit_lt_two_pow
          (lt_of_lt_of_le hh (Nat.pow_le_pow_right (by norm_num) (by omega)))
      simp [h1, h2, h4, hbit]
    · simp [h1, h2, h4]

theorem land_bit_small (n : Nat) (hn : n < 2 ^ 31) : n &&& COMPRESSION_BIT = 0 := by
  unfold COMPRESSION_BIT
  rw [Nat.and_two_pow, Nat.testBit_lt_two_pow hn]
  simp

theorem land_bit_large (n : Nat) (hn : n < 2 ^ 31) :
    (n + 2 ^ 31) &&& COMPRESSION_BIT = COMPRESSION_BIT := by
  unfold COMPRESSION_BIT
  rw [Nat.and_two_pow, testBit_add_two_pow n 31 hn]
  simp

/-- `decode_header` of an uncompressed header (a length below `2 ^ 31`). -/
theorem decode_header_small (n : Nat) (hn : n < 2 ^ 31) :
    decode_header n = (n, false) := by
  unfold decode_header
  rw [land_mask_eq_mod n (lt_trans hn (by norm_num)), Nat.mod_eq_of_lt hn,
    land_bit_small n hn]
  simp [COMPRESSION_BIT]

/-- `decode_header` of a compressed header (`len | COMPRESSION_BIT`). -/
theorem decode_header_large (n : Nat) (hn : n < 2 ^ 31) :
    decode_header (n + 2 ^ 31) = (n, true) := by
  unfold decode_header
  have h32 : n + 2 ^ 31 < 2 ^ 32 := by
    have h232 : (2 : Nat) ^ 32 = 2 ^ 31 + 2 ^ 31 := by norm_num
    omega
  rw [land_mask_eq_mod _ h32, land_bit_large n hn, Nat.add_mod_right,
    Nat.mod_eq_of_lt hn]
  simp

/-- Reading back the 4 big-endian header bytes recovers the `u32`. -/
theorem u32BE_recovers (x : Nat) (hx : x < 2 ^ 32) :
    x / 2 ^ 24 % 256 * 2 ^ 24 + x / 2 ^ 16 % 256 * 2 ^ 16 +
      x / 2 ^ 8 % 256 * 2 ^ 8 + x % 256 = x := by
  omega

/-- The header word of an encoded frame: its first 4 bytes, big-endian. -/
def frameHeader (out : List Nat) : Nat :=
  match out with
  | b0 :: b1 :: b2 :: b3 :: _ => b0 * 2 ^ 24 + b1 * 2 ^ 16 + b2 * 2 ^ 8 + b3
  | _ => 0

theorem frameHeader_u32BE (x : Nat) (rest : List Nat) (hx : x < 2 ^ 32) :
    frameHeader (u32BE x ++ rest) = x := by
  simp only [u32BE, List.cons_append, List.nil_append, frameHeader]
  exact u32BE_recovers x hx

theorem decode_frame_u32BE {M : Type} (c : FrameCodec M) (x : Nat) (tail : List Nat)
    (hx : x < 2 ^ 32) :
    decode_frame c (u32BE x ++ tail) =
      (if (decode_header x).2 then
        if (decode_header x).1 ≤ tail.length then
          match c.gzipD (tail.take (decode_header x).1) with
          | .ok inflated =>
            match c.dec inflated with
            | .ok m => .ok (m, tail.drop (decode_header x).1)
            | .error e => .error (.DecodeError e)
          | .error e => .error (.IOError e)
        else .error (.Internal "buffer underflow")
      else
        if (decode_header x).1 ≤ tail.length then
          match c.dec (tail.take (decode_header x).1) with
          | .ok m => .ok (m, tail.drop (decode_header x).1)
          | .error e => .error (.DecodeError e)
        else .error (.Internal "buffer underflow")) := by
  simp only [u32BE, List.cons_append, List.nil_append, decode_frame]
  rw [u32BE_recovers x hx]

/-! ### Claim C5: compression threshold of the frame header -/

/-- **C5.** For every message whose schema-encoded length `n` is at most
1436 bytes, the 4-byte big-endian header written by `encode_frame` has
bit 31 clear and carries length `n`; for `n > 1436` (and below the 2 GiB
ceiling, with the gzip output's length representable in 31 bits) the
header has bit 31 set and carries the gzip-compressed payload length.
`decode_header` of the header word recovers exactly (length, flag). -/
theorem frame_header_compression_threshold {M : Type} (c : FrameCodec M) (m : M) :
    ((c.enc m).length ≤ COMPRESSION_LIMIT →
      ∃ out, encode_frame c m = .ok out ∧
        frameHeader out = (c.enc m).length ∧
        (frameHeader out).testBit 31 = false ∧
        decode_header (frameHeader out) = ((c.enc m).length, false)) ∧
    ((c.enc m).length > COMPRESSION_LIMIT → (c.enc m).length < MAX_FRAME →
      (c.gzipC (c.enc m)).length < 2 ^ 31 →
      ∃ out, encode_frame c m = .ok out ∧
        frameHeader out = (c.gzipC (c.enc m)).length + 2 ^ 31 ∧
        (frameHeader out).testBit 31 = true ∧
        decode_header (frameHeader out) = ((c.gzipC (c.enc m)).length, true)) := by
  have hmax : MAX_FRAME = 2 ^ 31 := by norm_num [MAX_FRAME]
  constructor
  · intro hsmall
    have hlt31 : (c.enc m).length < 2 ^ 31 := by
      have : COMPRESSION_LIMIT < 2 ^ 31 := by norm_num [COMPRESSION_LIMIT]
      omega
    have hlt32 : (c.enc m).length < 2 ^ 32 := by
      have : (2 : Nat) ^ 31 < 2 ^ 32 := by norm_num
      omega
    have hnotmax : ¬((c.enc m).length ≥ MAX_FRAME) := by omega
    have hnotcomp : ¬((c.enc m).length > COMPRESSION_LIMIT) := by omega
    refine ⟨u32BE ((c.enc m).length % 2 ^ 32) ++ c.enc m, ?_, ?_, ?_, ?_⟩
    · simp only [encode_frame, hnotmax, hnotcomp, if_false]
    · rw [Nat.mod_eq_of_lt hlt32, frameHeader_u32BE _ _ hlt32]
    · rw [Nat.mod_eq_of_lt hlt32, frameHeader_u32BE _ _ hlt32]
      exact Nat.testBit_lt_two_pow hlt31
    · rw [Nat.mod_eq_of_lt hlt32, frameHeader_u32BE _ _ hlt32]
      exact decode_header_small _ hlt31
  · intro hcomp hm hclen
    have hnotmax : ¬((c.enc m).length ≥ MAX_FRAME) := by omega
    have hadd : (c.gzipC (c.enc m)).length ||| COMPRESSION_BIT =
        (c.gzipC (c.enc m)).length + 2 ^ 31 := lor_two_pow_eq_add _ hclen
    have hlt32 : (c.gzipC (c.enc m)).length + 2 ^ 31 < 2 ^ 32 := by
      have : (2 : Nat) ^ 32 = 2 ^ 31 + 2 ^ 31 := by norm_num
      omega
    refine ⟨u32BE (((c.gzipC (c.enc m)).length ||| COMPRESSION_BIT) % 2 ^ 32) ++
      c.gzipC (c.enc m), ?_, ?_, ?_, ?_⟩
    · simp only [encode_frame, hnotmax, hcomp, if_false, if_true]
    · rw [hadd, Nat.mod_eq_of_lt hlt32, frameHeader_u32BE _ _ hlt32]
    · rw [hadd, Nat.mod_eq_of_lt hlt32, frameHeader_u32BE _ _ hlt32,
        testBit_add_two_pow _ _ hclen]
      simp
    · rw [hadd, Nat.mod_eq_of_lt hlt32, frameHeader_u32BE _ _ hlt32]
      exact decode_header_large _ hclen

/-- A trivial concrete instantiation of the external codecs: identity
schema encoding and identity gzip — enough to exercise the frame layer
on explicit byte lists. -/
def idCodec : FrameCodec (List Nat) where
  enc := fun bs => bs
  dec := fun bs => .ok bs
  gzipC := fun bs => bs
  gzipD := fun bs => .ok bs

/-- Witness for C5: a 3-byte message stays uncompressed with header 3;
a 1437-byte message gets the compression bit and the compressed length. -/
theorem frame_header_compression_threshold_witness :
    (∃ out, encode_frame idCodec [1, 2, 3] = .ok out ∧
      decode_header (frameHeader out) = (3, false)) ∧
    (∃ out, encode_frame idCodec (List.replicate 1437 0) = .ok out ∧
      decode_header (frameHeader out) = (1437, true)) := by
  constructor
  · obtain ⟨out, h1, _, _, h4⟩ :=
      (frame_header_compression_threshold idCodec [1, 2, 3]).1
        (by norm_num [idCodec, COMPRESSION_LIMIT])
    exact ⟨out, h1, by simpa [idCodec] using h4⟩
  · have hlen : (idCodec.enc (List.replicate 1437 (0 : Nat))).length = 1437 := by
      simp only [idCodec, List.length_replicate]
    have hg : (idCodec.gzipC (idCodec.enc (List.replicate 1437 (0 : Nat)))).length = 1437 := by
      simp only [idCodec, List.length_replicate]
    obtain ⟨out, h1, _, _, h4⟩ :=
      (frame_header_compression_threshold idCodec (List.replicate 1437 0)).2
        (by rw [hlen]; norm_num [COMPRESSION_LIMIT])
        (by rw [hlen]; norm_num [MAX_FRAME])
        (by rw [hg]; norm_num)
    rw [hg] at h4
    exact ⟨out, h1, h4⟩

/-! ### Claim C3: frame round-trip -/

/-- **C3.** For every message `m` that encodes successfully (schema
length below the 2 GiB ceiling; the gzip output's length representable
in the 31-bit header), given that the external schema codec and gzip
round-trip on `m`'s encoding, encoding `m` into a frame buffer and then
decoding one frame from that buffer yields `m` back — both in the
compressed (`n > 1436`) and the uncompressed case — and the buffer is
advanced past the whole frame (exactly `rest` remains). -/
theorem frame_roundtrip {M : Type} (c : FrameCodec M) (m : M) (rest : List Nat)
    (hdec : c.dec (c.enc m) = .ok m)
    (hgz : c.gzipD (c.gzipC (c.enc m)) = .ok (c.enc m))
    (hsize : (c.enc m).length < MAX_FRAME)
    (hclen : (c.gzipC (c.enc m)).length < 2 ^ 31) :
    ∃ frame, encode_frame c m = .ok frame ∧
      decode_frame c (frame ++ rest) = .ok (m, rest) := by
  have hmax : MAX_FRAME = 2 ^ 31 := by norm_num [MAX_FRAME]
  have hnotmax : ¬((c.enc m).length ≥ MAX_FRAME) := by omega
  by_cases hcomp : (c.enc m).length > COMPRESSION_LIMIT
  · -- compressed branch
    have hadd : (c.gzipC (c.enc m)).length ||| COMPRESSION_BIT =
        (c.gzipC (c.enc m)).length + 2 ^ 31 := lor_two_pow_eq_add _ hclen
    have hlt32 : (c.gzipC (c.enc m)).length + 2 ^ 31 < 2 ^ 32 := by
      have : (2 : Nat) ^ 32 = 2 ^ 31 + 2 ^ 31 := by norm_num
      omega
    refine ⟨u32BE (((c.gzipC (c.enc m)).length ||| COMPRESSION_BIT) % 2 ^ 32) ++
      c.gzipC (c.enc m), ?_, ?_⟩
    · simp only [encode_frame, hnotmax, hcomp, if_false, if_true]
    · rw [hadd, Nat.mod_eq_of_lt hlt32, List.append_assoc,
        decode_frame_u32BE c _ _ hlt32, decode_header_large _ hclen]
      have htake : (c.gzipC (c.enc m) ++ rest).take (c.gzipC (c.enc m)).length =
          c.gzipC (c.enc m) := List.take_left _ _
      have hdrop : (c.gzipC (c.enc m) ++ rest).drop (c.gzipC (c.enc m)).length =
          rest := List.drop_left _ _
      have hlen : (c.gzipC (c.enc m)).length ≤ (c.gzipC (c.enc m) ++ rest).length := by
        simp
      simp only [if_true, hlen, if_pos, htake, hdrop, hgz, hdec]
  · -- uncompressed branch
    have hlt31 : (c.enc m).length < 2 ^ 31 := by omega
    have hlt32 : (c.enc m).length < 2 ^ 32 := by
      have : (2 : Nat) ^ 31 < 2 ^ 32 := by norm_num
      omega
    refine ⟨u32BE ((c.enc m).length % 2 ^ 32) ++ c.enc m, ?_, ?_⟩
    · simp only [encode_frame, hnotmax, hcomp, if_false]
    · rw [Nat.mod_eq_of_lt hlt32, List.append_assoc,
        decode_frame_u32BE c _ _ hlt32, decode_header_small _ hlt31]
      have htake : (c.enc m ++ rest).take (c.enc m).length = c.enc m :=
        List.take_left _ _
      have hdrop : (c.enc m ++ rest).drop (c.enc m).length = rest :=
        List.drop_left _ _
      have hlen : (c.enc m).length ≤ (c.enc m ++ rest).length := by simp
      simp only [Bool.false_eq_true, if_false, hlen, if_pos, htake, hdrop, hdec]

/-- Witness for C3: round-trip of an explicit 1-byte message (frame
left uncompressed) and of an explicit 1437-byte message (frame
compressed), with two trailing bytes left in the buffer. -/
theorem frame_roundtrip_witness :
    (∃ frame, encode_frame idCodec [7] = .ok frame ∧
      decode_frame idCodec (frame ++ [9, 9]) = .ok ([7], [9, 9])) ∧
    (∃ frame, encode_frame idCodec (List.replicate 1437 0) = .ok frame ∧
      decode_frame idCodec (frame ++ [9, 9]) = .ok (List.replicate 1437 0, [9, 9])) := by
  constructor
  · exact frame_roundtrip idCodec [7] [9, 9] rfl rfl
      (by norm_num [idCodec, MAX_FRAME]) (by norm_num [idCodec])
  · have hlen : (idCodec.enc (List.replicate 1437 (0 : Nat))).length = 1437 := by
      simp only [idCodec, List.length_replicate]
    have hg : (idCodec.gzipC (idCodec.enc (List.replicate 1437 (0 : Nat)))).length = 1437 := by
      simp only [idCodec, List.length_replicate]
    exact frame_roundtrip idCodec (List.replicate 1437 0) [9, 9] rfl rfl
      (by rw [hlen]; norm_num [MAX_FRAME]) (by rw [hg]; norm_num)

/-! ### Claim C6: storage backend contract -/

/-- **C6.** For both storage backends (memory and sled), for a table
`t`, key `k` absent from the store, and values `v1`, `v2`: the first
`set` returns `None`, a second `set` returns `Some v1` as the previous
value, `get` then returns `Some v2`, `del` returns `Some v2`, and a
final `get` returns `None`.  For the sled backend the external `prost`
codec is assumed to round-trip on `v1` and `v2`. -/
theorem storage_backend_contract (m : MemTable) (t k : String) (v1 v2 : Value)
    (c : ValueCodec) (db : SledTree)
    (hmem : (m.get t k).1 = .ok none)
    (hsled : getKV db (get_full_key t k) = none)
    (h1 : c.dec (c.enc v1) = .ok v1)
    (h2 : c.dec (c.enc v2) = .ok v2) :
    ((m.set t k v1).1 = .ok none ∧
     ((m.set t k v1).2.set t k v2).1 = .ok (some v1) ∧
     (((m.set t k v1).2.set t k v2).2.get t k).1 = .ok (some v2) ∧
     (((m.set t k v1).2.set t k v2).2.del t k).1 = .ok (some v2) ∧
     ((((m.set t k v1).2.set t k v2).2.del t k).2.get t k).1 = .ok none) ∧
    ((SledDb.set c db t k v1).1 = .ok none ∧
     (SledDb.set c (SledDb.set c db t k v1).2 t k v2).1 = .ok (some v1) ∧
     SledDb.get c (SledDb.set c (SledDb.set c db t k v1).2 t k v2).2 t k =
       .ok (some v2) ∧
     (SledDb.del c (SledDb.set c (SledDb.set c db t k v1).2 t k v2).2 t k).1 =
       .ok (some v2) ∧
     SledDb.get c
       (SledDb.del c (SledDb.set c (SledDb.set c db t k v1).2 t k v2).2 t k).2 t k =
       .ok none) := by
  constructor
  · rcases hoc : getKV m.tables t with _ | tb
    · -- the table does not exist yet: get_or_create_table creates it
      have hset1 : m.set t k v1 =
          (.ok none, ⟨setKV (setKV m.tables t []) t (setKV [] k v1)⟩) := by
        simp [MemTable.set, MemTable.get_or_create_table, hoc, getKV]
      rw [hset1]
      refine ⟨rfl, ?_⟩
      simp [MemTable.set, MemTable.get, MemTable.del, MemTable.get_or_create_table,
        getKV_setKV_self, getKV_delKV_self, getKV]
    · -- the table exists; the key is absent from it by `hmem`
      have hk : getKV tb k = none := by
        simpa [MemTable.get, MemTable.get_or_create_table, hoc] using hmem
      have hset1 : m.set t k v1 =
          (.ok none, ⟨setKV m.tables t (setKV tb k v1)⟩) := by
        simp [MemTable.set, MemTable.get_or_create_table, hoc, hk]
      rw [hset1]
      refine ⟨rfl, ?_⟩
      simp [MemTable.set, MemTable.get, MemTable.del, MemTable.get_or_create_table,
        getKV_setKV_self, getKV_delKV_self]
  · refine ⟨?_, ?_, ?_, ?_, ?_⟩ <;>
      simp [SledDb.set, SledDb.get, SledDb.del, ValueCodec.tryIntoValue, hsled,
        getKV_setKV_self, getKV_delKV_self, h1, h2]

/-- A concrete instantiation of the external `prost` value codec,
injective on the two string values used by the witnesses. -/
def witCodec : ValueCodec where
  enc := fun v => if v = Value.ofStr "a" then [0] else [1]
  dec := fun bs => if bs = [0] then .ok (Value.ofStr "a") else .ok (Value.ofStr "b")

/-- Witness for C6: the chain on the empty memory store and the empty
sled tree with values "a" and "b". -/
theorem storage_backend_contract_witness :
    ((MemTable.newTable.set "t1" "k1" (Value.ofStr "a")).2.set "t1" "k1"
      (Value.ofStr "b")).1 = .ok (some (Value.ofStr "a")) ∧
    (SledDb.set witCodec (SledDb.set witCodec [] "t1" "k1" (Value.ofStr "a")).2
      "t1" "k1" (Value.ofStr "b")).1 = .ok (some (Value.ofStr "a")) := by
  have h := storage_backend_contract MemTable.newTable "t1" "k1"
    (Value.ofStr "a") (Value.ofStr "b") witCodec []
    (by rfl) (by rfl) (by simp [witCodec]) (by simp [witCodec, Value.ofStr])
  exact ⟨h.1.2.1, h.2.2.1⟩

/-! ### Claim C9: sled composite-key collision -/

/-- **C9.** In the sled backend, two distinct (table, key) pairs whose
composite strings `"{table}:{key}"` are equal address the same stored
entry: a `set` through one pair is visible to a `get` through the
other (assuming the codec round-trips on the stored value). -/
theorem sled_key_collision (c : ValueCodec) (db : SledTree)
    (t1 k1 t2 k2 : String) (v : Value)
    (heq : get_full_key t1 k1 = get_full_key t2 k2)
    (hv : c.dec (c.enc v) = .ok v) :
    SledDb.get c (SledDb.set c db t1 k1 v).2 t2 k2 = .ok (some v) := by
  simp [SledDb.set, SledDb.get, ← heq, getKV_setKV_self, ValueCodec.tryIntoValue, hv]

/-- Witness for C9: the claim's example — `set(table="a", key="b:c", v)`
then `get(table="a:b", key="c")` returns `Some v`. -/
theorem sled_key_collision_witness :
    get_full_key "a" "b:c" = get_full_key "a:b" "c" ∧
    SledDb.get witCodec (SledDb.set witCodec [] "a" "b:c" (Value.ofStr "a")).2
      "a:b" "c" = .ok (some (Value.ofStr "a")) :=
  ⟨rfl, sled_key_collision witCodec [] "a" "b:c" "a:b" "c" (Value.ofStr "a")
    rfl (by simp [witCodec])⟩

/-! ### Claim C10: Hset with a pair whose value field is absent -/

/-- **C10.** For every `Hset` whose pair is present but whose pair's
value is absent, the handler stores the default (empty-variant) `Value`
under the pair's key — a 200 response carrying the previous value (the
default `Value` when the key was new) — and a subsequent storage `get`
on that key returns the default `Value` as present. -/
theorem hset_missing_value_stores_default (m : MemTable) (table key : String) :
    (Hset.execute ⟨table, some ⟨key, none⟩⟩ m).1 =
      CommandResponse.fromValue
        ((getKV (m.get_or_create_table table).1 key).getD Value.defaultVal) ∧
    (Hset.execute ⟨table, some ⟨key, none⟩⟩ m).1.status = 200 ∧
    (((Hset.execute ⟨table, some ⟨key, none⟩⟩ m).2).get table key).1 =
      .ok (some Value.defaultVal) := by
  rcases hoc : getKV m.tables table with _ | tb
  · have hrun : Hset.execute ⟨table, some ⟨key, none⟩⟩ m =
        (CommandResponse.fromValue Value.defaultVal,
          ⟨setKV (setKV m.tables table []) table (setKV [] key Value.defaultVal)⟩) := by
      simp [Hset.execute, MemTable.set, MemTable.get_or_create_table, hoc, getKV]
    rw [hrun]
    refine ⟨?_, rfl, ?_⟩
    · simp [MemTable.get_or_create_table, hoc, getKV]
    · simp [MemTable.get, MemTable.get_or_create_table, getKV_setKV_self]
  · rcases hk : getKV tb key with _ | v0
    · have hrun : Hset.execute ⟨table, some ⟨key, none⟩⟩ m =
          (CommandResponse.fromValue Value.defaultVal,
            ⟨setKV m.tables table (setKV tb key Value.defaultVal)⟩) := by
        simp [Hset.execute, MemTable.set, MemTable.get_or_create_table, hoc, hk]
      rw [hrun]
      refine ⟨?_, rfl, ?_⟩
      · simp [MemTable.get_or_create_table, hoc, hk]
      · simp [MemTable.get, MemTable.get_or_create_table, getKV_setKV_self]
    · have hrun : Hset.execute ⟨table, some ⟨key, none⟩⟩ m =
          (CommandResponse.fromValue v0,
            ⟨setKV m.tables table (setKV tb key Value.defaultVal)⟩) := by
        simp [Hset.execute, MemTable.set, MemTable.get_or_create_table, hoc, hk]
      rw [hrun]
      refine ⟨?_, rfl, ?_⟩
      · simp [MemTable.get_or_create_table, hoc, hk]
      · simp [MemTable.get, MemTable.get_or_create_table, getKV_setKV_self]

/-! ### Claim C1: the Hm* variants and the service dispatch -/

/-- **C1 (code behaviour at the claimed inputs).** For every request
whose variant is `Hmget`/`Hmset`/`Hdel`/`Hmdel`/`Hexist`/`Hmexist`,
`dispatch` yields the default sentinel response, so `Service::execute`
falls through to `dispatch_stream`, whose catch-all arm is
`unreachable!()` — the execution panics instead of returning the 500
response the claim (and spec §4.6) requires. -/
theorem hm_variants_reach_unreachable (hooks : List (CommandResponse → CommandResponse))
    (store : MemTable) (b : Broadcaster) (t k : String) (keys : List String)
    (pairs : List Kvpair) :
    (Service.execute hooks ⟨some (.Hmget ⟨t, keys⟩)⟩ store b).1 = .panicked ∧
    (Service.execute hooks ⟨some (.Hmset ⟨t, pairs⟩)⟩ store b).1 = .panicked ∧
    (Service.execute hooks ⟨some (.Hdel ⟨t, k⟩)⟩ store b).1 = .panicked ∧
    (Service.execute hooks ⟨some (.Hmdel ⟨t, keys⟩)⟩ store b).1 = .panicked ∧
    (Service.execute hooks ⟨some (.Hexist ⟨t, k⟩)⟩ store b).1 = .panicked ∧
    (Service.execute hooks ⟨some (.Hmexist ⟨t, keys⟩)⟩ store b).1 = .panicked := by
  refine ⟨?_, ?_, ?_, ?_, ?_, ?_⟩ <;>
    simp [Service.execute, dispatch, dispatch_stream]

/-! ### Claim C8: subscription id sequence -/

/-- `n` successive `subscribe` calls on the same broadcaster. -/
def subscribeN (b : Broadcaster) (name : String) : Nat → Broadcaster
  | 0 => b
  | n + 1 => ((subscribeN b name n).subscribe name).2

/-- The id returned by subscribe call number `n + 1` in a fresh process
(`NEXT_ID` at its initial value 1). -/
def idAt (name : String) (n : Nat) : Nat :=
  ((subscribeN Broadcaster.fresh name n).subscribe name).1

theorem subscribeN_nextId (b : Broadcaster) (name : String) (n : Nat)
    (hb : b.nextId < 2 ^ 32) :
    (subscribeN b name n).nextId = (b.nextId + n) % 2 ^ 32 := by
  induction n with
  | zero =>
    simp only [subscribeN]
    omega
  | succ n ih =>
    show ((subscribeN b name n).subscribe name).2.nextId = _
    simp only [Broadcaster.subscribe, ih]
    omega

theorem idAt_eq (name : String) (n : Nat) : idAt name n = (1 + n) % 2 ^ 32 := by
  have h := subscribeN_nextId Broadcaster.fresh name n (by norm_num [Broadcaster.fresh])
  show ((subscribeN Broadcaster.fresh name n).subscribe name).1 = _
  change (subscribeN Broadcaster.fresh name n).nextId = _
  rw [h]
  rfl

/-- Counterexample to C8 as stated: the `AtomicU32` counter wraps, so
the id sequence from a fresh state is not strictly increasing forever —
subscribe number `2 ^ 32 - 1` returns id `2 ^ 32 - 1` but the very next
subscribe returns id 0. -/
theorem subscribe_id_wraparound :
    idAt "lobby" (2 ^ 32 - 2) = 2 ^ 32 - 1 ∧
    idAt "lobby" (2 ^ 32 - 1) = 0 ∧
    ¬(idAt "lobby" (2 ^ 32 - 2) < idAt "lobby" (2 ^ 32 - 1)) := by
  rw [idAt_eq, idAt_eq]
  norm_num

/-- **C8 (amended).** In a fresh process state the ids returned by
successive subscribe calls start at 1 and are strictly increasing as
long as fewer than `2 ^ 32` ids have been issued (the `u32` counter has
not wrapped). -/
theorem subscribe_ids_increasing_until_wrap (name : String) (i j : Nat)
    (hij : i < j) (hj : j < 2 ^ 32 - 1) :
    idAt name 0 = 1 ∧ idAt name i < idAt name j := by
  rw [idAt_eq, idAt_eq, idAt_eq]
  have hi1 : 1 + i < 2 ^ 32 := by omega
  have hj1 : 1 + j < 2 ^ 32 := by omega
  rw [Nat.mod_eq_of_lt hi1, Nat.mod_eq_of_lt hj1]
  norm_num
  omega

/-- Witness for the amended C8: the first two ids are 1 and 2. -/
theorem subscribe_ids_increasing_until_wrap_witness :
    0 < 1 ∧ 1 < 2 ^ 32 - 1 ∧ (idAt "lobby" 0 = 1 ∧ idAt "lobby" 0 < idAt "lobby" 1) :=
  ⟨by norm_num, by norm_num,
    subscribe_ids_increasing_until_wrap "lobby" 0 1 (by norm_num) (by norm_num)⟩

/-! ### Claim C4: the Unsubscribe handler -/

theorem mem_removeSet {α : Type} [DecidableEq α] (s : List α) (a x : α) :
    x ∈ removeSet s a ↔ x ∈ s ∧ x ≠ a := by
  simp [removeSet, List.mem_filter]

theorem not_mem_removeSet {α : Type} [DecidableEq α] (s : List α) (a : α) :
    a ∉ removeSet s a := by
  simp [mem_removeSet]

/-- The post-state of the Unsubscribe handler is always the
`remove_subscription` post-state, whichever branch answered. -/
theorem unsubscribe_execute_state (b : Broadcaster) (name : String) (id : Nat) :
    (Unsubscribe.execute ⟨name, id⟩ b).2 = (b.remove_subscription name id).2 := by
  simp only [Unsubscribe.execute, Broadcaster.unsubscribeChecked]
  rcases hc : getKV b.subscriptions id with _ | s <;>
    simp [Broadcaster.remove_subscription, hc]

/-- After `remove_subscription name id`, `id` is not in the named
topic's subscriber set (when the topic still exists). -/
theorem unsubscribe_removed_from_topic (b : Broadcaster) (name : String) (id : Nat)
    (ids : List Nat)
    (hids : getKV ((Unsubscribe.execute ⟨name, id⟩ b).2).topics name = some ids) :
    id ∉ ids := by
  rw [unsubscribe_execute_state] at hids
  unfold Broadcaster.remove_subscription at hids
  rcases ht : getKV b.topics name with _ | ids0
  · rw [ht] at hids
    simp only at hids
    rw [hids] at ht
    cases ht
  · rw [ht] at hids
    simp only at hids
    by_cases hemp : removeSet ids0 id = []
    · rw [if_pos hemp, getKV_delKV_self] at hids
      cases hids
    · rw [if_neg hemp, getKV_setKV_self] at hids
      cases hids
      exact not_mem_removeSet ids0 id

/-- After `remove_subscription name id`, `id` is not a key of the
subscriptions map. -/
theorem unsubscribe_removed_from_subs (b : Broadcaster) (name : String) (id : Nat) :
    getKV ((Unsubscribe.execute ⟨name, id⟩ b).2).subscriptions id = none := by
  rw [unsubscribe_execute_state]
  simp [Broadcaster.remove_subscription, getKV_delKV_self]

/-- **C4.** `Unsubscribe(name, id)` answers 200 when the subscription id
exists, and a 404 response whose message is
`"Not found subscription {id}"` when it does not (spec-modelled erroring
revision of `Topic::unsubscribe`); in both cases `id` is afterwards
absent from the named topic's subscriber set and from the subscriptions
map. -/
theorem unsubscribe_response_and_removal (b : Broadcaster) (name : String) (id : Nat) :
    ((getKV b.subscriptions id).isSome = true →
      (Unsubscribe.execute ⟨name, id⟩ b).1 = .single CommandResponse.okRes) ∧
    ((getKV b.subscriptions id).isSome = false →
      (Unsubscribe.execute ⟨name, id⟩ b).1 =
        .single ⟨404, "Not found subscription " ++ toString id, [], []⟩) ∧
    (∀ ids, getKV ((Unsubscribe.execute ⟨name, id⟩ b).2).topics name = some ids →
      id ∉ ids) ∧
    getKV ((Unsubscribe.execute ⟨name, id⟩ b).2).subscriptions id = none := by
  have hmsg : "Not found " ++ ("subscription " ++ toString id) =
      "Not found subscription " ++ toString id :=
    (String.append_assoc "Not found " "subscription " (toString id)).symm
  rcases hc : getKV b.subscriptions id with _ | s
  · refine ⟨?_, ?_, ?_, ?_⟩
    · intro h
      simp [hc] at h
    · intro _
      simp only [Unsubscribe.execute, Broadcaster.unsubscribeChecked,
        Broadcaster.remove_subscription, hc, Option.map_none',
        CommandResponse.fromError, KvError.toMessage]
      rw [hmsg]
    · intro ids hids
      exact unsubscribe_removed_from_topic b name id ids hids
    · exact unsubscribe_removed_from_subs b name id
  · refine ⟨?_, ?_, ?_, ?_⟩
    · intro _
      simp only [Unsubscribe.execute, Broadcaster.unsubscribeChecked,
        Broadcaster.remove_subscription, hc, Option.map_some']
    · intro h
      simp [hc] at h
    · intro ids hids
      exact unsubscribe_removed_from_topic b name id ids hids
    · exact unsubscribe_removed_from_subs b name id

/-- Witness for C4: unsubscribing the live subscription 1 answers 200;
unsubscribing the never-issued id 121233 on a fresh broadcaster answers
404 with message "Not found subscription 121233", and the id is absent
from the subscriptions map afterwards. -/
theorem unsubscribe_response_and_removal_witness :
    (Unsubscribe.execute ⟨"lobby", 1⟩ ((Broadcaster.fresh.subscribe "lobby").2)).1 =
      .single CommandResponse.okRes ∧
    (Unsubscribe.execute ⟨"lobby", 121233⟩ Broadcaster.fresh).1 =
      .single ⟨404, "Not found subscription " ++ toString 121233, [], []⟩ ∧
    getKV ((Unsubscribe.execute ⟨"lobby", 121233⟩ Broadcaster.fresh).2).subscriptions
      121233 = none :=
  ⟨(unsubscribe_response_and_removal ((Broadcaster.fresh.subscribe "lobby").2)
      "lobby" 1).1 (by decide),
   (unsubscribe_response_and_removal Broadcaster.fresh "lobby" 121233).2.1 (by decide),
   (unsubscribe_response_and_removal Broadcaster.fresh "lobby" 121233).2.2.2⟩

/-! ### Claim C2: the Publish fan-out response -/

theorem sendStep_lookup_ne (res : CommandResponse)
    (acc : List (Nat × Subscription) × List Nat) (a x : Nat) (hxa : x ≠ a) :
    getKV (sendStep res acc a).1 x = getKV acc.1 x ∧
    (x ∈ (sendStep res acc a).2 ↔ x ∈ acc.2) := by
  unfold sendStep
  rcases ha : getKV acc.1 a with _ | s
  · simp
  · by_cases hcl : s.closed
    · simp [hcl, hxa]
    · simp [hcl, getKV_setKV_ne _ _ _ _ hxa]

theorem sendStep_foldl_ne (res : CommandResponse) (l : List Nat) (x : Nat)
    (hx : x ∉ l) :
    ∀ acc, getKV (l.foldl (sendStep res) acc).1 x = getKV acc.1 x ∧
      (x ∈ (l.foldl (sendStep res) acc).2 ↔ x ∈ acc.2) := by
  induction l with
  | nil => intro acc; simp
  | cons a rest ih =>
    intro acc
    have hxa : x ≠ a := fun h => hx (h ▸ List.mem_cons_self a rest)
    have hxr : x ∉ rest := fun h => hx (List.mem_cons_of_mem a h)
    rw [List.foldl_cons]
    obtain ⟨h1, h2⟩ := sendStep_lookup_ne res acc a x hxa
    obtain ⟨h3, h4⟩ := ih hxr (sendStep res acc a)
    exact ⟨h3.trans h1, h4.trans h2⟩

theorem sendStep_foldl_delivers (res : CommandResponse) (ids : List Nat) (id : Nat)
    (s : Subscription) :
    ∀ acc : List (Nat × Subscription) × List Nat,
    ids.Nodup → id ∈ ids → getKV acc.1 id = some s → s.closed = false →
    id ∉ acc.2 →
    getKV (ids.foldl (sendStep res) acc).1 id = some ⟨s.queue ++ [res], false⟩ ∧
    id ∉ (ids.foldl (sendStep res) acc).2 := by
  induction ids with
  | nil =>
    intro acc _ hmem _ _ _
    cases hmem
  | cons a rest ih =>
    intro acc hnd hmem hl hc hnf
    rw [List.foldl_cons]
    by_cases hid : a = id
    · subst hid
      have hnr : a ∉ rest := (List.nodup_cons.mp hnd).1
      have hstep : sendStep res acc a = (setKV acc.1 a ⟨s.queue ++ [res], false⟩, acc.2) := by
        unfold sendStep
        rw [hl]
        simp [hc]
      rw [hstep]
      obtain ⟨h1, h2⟩ := sendStep_foldl_ne res rest a hnr
        (setKV acc.1 a ⟨s.queue ++ [res], false⟩, acc.2)
      refine ⟨?_, ?_⟩
      · rw [h1]
        exact getKV_setKV_self _ _ _
      · exact fun hmm => hnf (h2.mp hmm)
    · have hmem' : id ∈ rest := by
        rcases List.mem_cons.mp hmem with h | h
        · exact absurd h.symm hid
        · exact h
      obtain ⟨hs1, hs2⟩ := sendStep_lookup_ne res acc a id (fun h => hid h.symm)
      exact ih (sendStep res acc a) (List.nodup_cons.mp hnd).2 hmem'
        (hs1.trans hl) hc (fun hmm => hnf (hs2.mp hmm))

theorem remove_foldl_lookup_ne (name : String) (l : List Nat) (x : Nat) (hx : x ∉ l) :
    ∀ b : Broadcaster,
      getKV (l.foldl (fun acc i => (acc.remove_subscription name i).2) b).subscriptions
        x = getKV b.subscriptions x := by
  induction l with
  | nil => intro b; rfl
  | cons a rest ih =>
    intro b
    have hxa : x ≠ a := fun h => hx (h ▸ List.mem_cons_self a rest)
    have hxr : x ∉ rest := fun h => hx (List.mem_cons_of_mem a h)
    rw [List.foldl_cons, ih hxr]
    simp [Broadcaster.remove_subscription, getKV_delKV_ne _ _ _ hxa]

/-- Counterexample to C2 as stated: with one open subscriber of
"lobby", publishing `[7]` through the Publish handler appends a message
whose `values` are the published sequence but whose status is 0 — the
`From<Vec<Value>>` conversion leaves the default status, not 200. -/
theorem publish_fanout_status_counterexample :
    (getKV ((Publish.execute ⟨"lobby", [Value.ofInt 7]⟩
        ((Broadcaster.fresh.subscribe "lobby").2)).2).subscriptions 1).map
      Subscription.queue =
      some [idMessage 1, ⟨0, "", [Value.ofInt 7], []⟩] ∧
    (0 : Nat) ≠ 200 := by
  exact ⟨by decide, by decide⟩

/-- **C2 (amended).** For every `Publish(name, values)` request, the
response fanned out to every current open subscriber of the topic is
`CommandResponse.fromValues values` — the response whose `values` field
equals the published sequence but whose status is 0 (the
`Default::default()` status left by `From<Vec<Value>>`), not 200: it is
appended to each such subscriber's channel. -/
theorem publish_fanout_delivers (b : Broadcaster) (name : String) (vs : List Value)
    (id : Nat) (s : Subscription) (ids : List Nat)
    (hids : getKV b.topics name = some ids)
    (hnodup : ids.Nodup)
    (hmem : id ∈ ids)
    (hsub : getKV b.subscriptions id = some s)
    (hopen : s.closed = false) :
    getKV ((Publish.execute ⟨name, vs⟩ b).2).subscriptions id =
      some ⟨s.queue ++ [CommandResponse.fromValues vs], false⟩ ∧
    CommandResponse.fromValues vs = ⟨0, "", vs, []⟩ := by
  refine ⟨?_, rfl⟩
  show getKV (b.publish name (CommandResponse.fromValues vs)).subscriptions id = _
  unfold Broadcaster.publish
  rw [hids]
  obtain ⟨h1, h2⟩ := sendStep_foldl_delivers (CommandResponse.fromValues vs) ids id s
    (b.subscriptions, []) hnodup hmem hsub hopen (by simp)
  rw [remove_foldl_lookup_ne name _ id h2]
  exact h1

/-- Witness for the amended C2: the single open subscriber (id 1) of
"lobby" receives `⟨0, "", [7], []⟩` appended after its id message. -/
theorem publish_fanout_delivers_witness :
    getKV ((Publish.execute ⟨"lobby", [Value.ofInt 7]⟩
        ((Broadcaster.fresh.subscribe "lobby").2)).2).subscriptions 1 =
      some ⟨[idMessage 1] ++ [CommandResponse.fromValues [Value.ofInt 7]], false⟩ :=
  (publish_fanout_delivers ((Broadcaster.fresh.subscribe "lobby").2) "lobby"
    [Value.ofInt 7] 1 ⟨[idMessage 1], false⟩ [1]
    (by decide) (by decide) (by decide) (by decide) (by decide)).1

/-! ### Claim C7: the broadcaster maps invariant -/

theorem getKV_mem {α β : Type} [DecidableEq α] (l : List (α × β)) (k : α) (v : β)
    (h : getKV l k = some v) : (k, v) ∈ l := by
  induction l with
  | nil => cases h
  | cons p rest ih =>
    by_cases hk : p.1 = k
    · rw [getKV, if_pos hk] at h
      cases h
      subst hk
      simp
    · rw [getKV, if_neg hk] at h
      exact List.mem_cons_of_mem p (ih h)

theorem getKV_eq_none_forall {α β : Type} [DecidableEq α] (l : List (α × β)) (k : α)
    (h : getKV l k = none) : ∀ p ∈ l, p.1 ≠ k := by
  induction l with
  | nil => intro p hp; cases hp
  | cons q rest ih =>
    by_cases hk : q.1 = k
    · rw [getKV, if_pos hk] at h
      cases h
    · rw [getKV, if_neg hk] at h
      intro p hp
      rcases List.mem_cons.mp hp with h0 | h0
      · rw [h0]; exact hk
      · exact ih h p h0

theorem mem_keys_setKV {α β : Type} [DecidableEq α] (l : List (α × β)) (k x : α)
    (v : β) : x ∈ (setKV l k v).map Prod.fst ↔ x ∈ l.map Prod.fst ∨ x = k := by
  induction l with
  | nil => simp [setKV]
  | cons p rest ih =>
    by_cases h : p.1 = k
    · subst h
      simp [setKV]
      tauto
    · simp [setKV, h, ih]
      tauto

theorem setKV_keys_nodup {α β : Type} [DecidableEq α] (l : List (α × β)) (k : α)
    (v : β) (h : (l.map Prod.fst).Nodup) : ((setKV l k v).map Prod.fst).Nodup := by
  induction l with
  | nil => simp [setKV]
  | cons p rest ih =>
    rw [List.map_cons, List.nodup_cons] at h
    by_cases hk : p.1 = k
    · subst hk
      simp only [setKV, eq_self_iff_true, if_true, List.map_cons, List.nodup_cons]
      exact h
    · simp only [setKV, if_neg hk, List.map_cons, List.nodup_cons]
      refine ⟨?_, ih h.2⟩
      intro hmem
      rcases (mem_keys_setKV rest k p.1 v).mp hmem with h0 | h0
      · exact h.1 h0
      · exact hk h0

theorem mem_setKV_weak {α β : Type} [DecidableEq α] (l : List (α × β)) (k : α)
    (v : β) (p : α × β) (hp : p ∈ setKV l k v) : p = (k, v) ∨ p ∈ l := by
  induction l with
  | nil =>
    simp [setKV] at hp
    left
    exact hp
  | cons q rest ih =>
    by_cases h : q.1 = k
    · rw [setKV, if_pos h] at hp
      rcases List.mem_cons.mp hp with h0 | h0
      · left; exact h0
      · right; exact List.mem_cons_of_mem q h0
    · rw [setKV, if_neg h] at hp
      rcases List.mem_cons.mp hp with h0 | h0
      · right; rw [h0]; exact List.mem_cons_self q rest
      · rcases ih h0 with h1 | h1
        · left; exact h1
        · right; exact List.mem_cons_of_mem q h1

theorem mem_setKV_nodup {α β : Type} [DecidableEq α] (l : List (α × β)) (k : α)
    (v : β) (p : α × β) (hnd : (l.map Prod.fst).Nodup) (hp : p ∈ setKV l k v) :
    p = (k, v) ∨ (p ∈ l ∧ p.1 ≠ k) := by
  induction l with
  | nil =>
    simp [setKV] at hp
    left
    exact hp
  | cons q rest ih =>
    rw [List.map_cons, List.nodup_cons] at hnd
    by_cases h : q.1 = k
    · rw [setKV, if_pos h] at hp
      rcases List.mem_cons.mp hp with h0 | h0
      · left; exact h0
      · right
        refine ⟨List.mem_cons_of_mem q h0, ?_⟩
        intro hc
        apply hnd.1
        rw [h] at hnd ⊢
        rw [← hc]
        exact List.mem_map_of_mem Prod.fst h0
    · rw [setKV, if_neg h] at hp
      rcases List.mem_cons.mp hp with h0 | h0
      · right
        rw [h0]
        exact ⟨List.mem_cons_self q rest, h⟩
      · rcases ih hnd.2 h0 with h1 | h1
        · left; exact h1
        · right; exact ⟨List.mem_cons_of_mem q h1.1, h1.2⟩

theorem mem_delKV {α β : Type} [DecidableEq α] (l : List (α × β)) (k : α)
    (p : α × β) (hp : p ∈ delKV l k) : p ∈ l ∧ p.1 ≠ k := by
  have := List.mem_filter.mp hp
  simpa using this

theorem delKV_keys_nodup {α β : Type} [DecidableEq α] (l : List (α × β)) (k : α)
    (h : (l.map Prod.fst).Nodup) : ((delKV l k).map Prod.fst).Nodup :=
  ((List.filter_sublist l).map Prod.fst).nodup h

theorem isSome_getKV_setKV {α β : Type} [DecidableEq α] (l : List (α × β)) (k x : α)
    (v : β) (h : (getKV l x).isSome = true) :
    (getKV (setKV l k v) x).isSome = true := by
  by_cases hx : x = k
  · subst hx
    rw [getKV_setKV_self]
    rfl
  · rw [getKV_setKV_ne _ _ _ _ hx]
    exact h

theorem mem_insertSet {α : Type} [DecidableEq α] (s : List α) (a x : α) :
    x ∈ insertSet s a ↔ x ∈ s ∨ x = a := by
  unfold insertSet
  by_cases h : a ∈ s
  · simp only [if_pos h]
    constructor
    · exact fun hx => Or.inl hx
    · rintro (hx | hx)
      · exact hx
      · rw [hx]; exact h
  · simp [if_neg h]

theorem insertSet_ne_nil {α : Type} [DecidableEq α] (s : List α) (a : α) :
    insertSet s a ≠ [] := by
  unfold insertSet
  by_cases h : a ∈ s
  · rw [if_pos h]
    intro hc
    rw [hc] at h
    cases h
  · rw [if_neg h]
    simp

/-- The C7 invariant: topic keys are unique (as in a `DashMap`), every
topic entry's subscriber set is nonempty, and every id in any topic's
set is a key of the subscriptions map. -/
def topicInvariant (b : Broadcaster) : Prop :=
  (b.topics.map Prod.fst).Nodup ∧
  ∀ p ∈ b.topics, p.2 ≠ [] ∧ ∀ id ∈ p.2, (getKV b.subscriptions id).isSome = true

/-- The state produced by `subscribe`, spelled out. -/
theorem subscribe_state (b : Broadcaster) (name : String) :
    (b.subscribe name).2 =
      ⟨setKV b.topics name (insertSet ((getKV b.topics name).getD []) b.nextId),
       setKV b.subscriptions b.nextId ⟨[idMessage b.nextId], false⟩,
       (b.nextId + 1) % 2 ^ 32⟩ := rfl

/-- The state produced by `remove_subscription`, spelled out. -/
theorem remove_subscription_state (b : Broadcaster) (name : String) (id : Nat) :
    (b.remove_subscription name id).2 =
      ⟨match getKV b.topics name with
        | none => b.topics
        | some ids =>
          if removeSet ids id = [] then delKV b.topics name
          else setKV b.topics name (removeSet ids id),
       delKV b.subscriptions id, b.nextId⟩ := rfl

theorem subscribe_preserves_invariant (b : Broadcaster) (name : String)
    (h : topicInvariant b) : topicInvariant (b.subscribe name).2 := by
  obtain ⟨hnd, hent⟩ := h
  rw [subscribe_state]
  refine ⟨setKV_keys_nodup _ _ _ hnd, ?_⟩
  intro p hp
  rcases mem_setKV_weak _ _ _ _ hp with h0 | h0
  · subst h0
    refine ⟨insertSet_ne_nil _ _, ?_⟩
    intro i hi
    rcases (mem_insertSet _ _ _).mp hi with h1 | h1
    · rcases hgt : getKV b.topics name with _ | ids0
      · rw [hgt] at h1
        cases h1
      · rw [hgt] at h1
        exact isSome_getKV_setKV _ _ _ _
          ((hent (name, ids0) (getKV_mem _ _ _ hgt)).2 i h1)
    · subst h1
      rw [getKV_setKV_self]
      rfl
  · obtain ⟨hne, hmem⟩ := hent p h0
    exact ⟨hne, fun i hi => isSome_getKV_setKV _ _ _ _ (hmem i hi)⟩

theorem remove_subscription_preserves_invariant (b : Broadcaster) (name : String)
    (id : Nat) (h : topicInvariant b)
    (hside : ∀ p ∈ b.topics, p.1 ≠ name → id ∉ p.2) :
    topicInvariant (b.remove_subscription name id).2 := by
  obtain ⟨hnd, hent⟩ := h
  rw [remove_subscription_state]
  rcases ht : getKV b.topics name with _ | ids0
  · refine ⟨hnd, ?_⟩
    intro p hp
    obtain ⟨hne, hmem⟩ := hent p hp
    refine ⟨hne, ?_⟩
    intro i hi
    have hiid : i ≠ id := by
      intro hc
      subst hc
      exact hside p hp (getKV_eq_none_forall _ _ ht p hp) hi
    rw [getKV_delKV_ne _ _ _ hiid]
    exact hmem i hi
  · by_cases hemp : removeSet ids0 id = []
    · simp only [hemp, if_pos rfl]
      refine ⟨delKV_keys_nodup _ _ hnd, ?_⟩
      intro p hp
      obtain ⟨hpin, hpne⟩ := mem_delKV _ _ _ hp
      obtain ⟨hne, hmem⟩ := hent p hpin
      refine ⟨hne, ?_⟩
      intro i hi
      have hiid : i ≠ id := by
        intro hc
        subst hc
        exact hside p hpin hpne hi
      rw [getKV_delKV_ne _ _ _ hiid]
      exact hmem i hi
    · simp only [if_neg hemp]
      refine ⟨setKV_keys_nodup _ _ _ hnd, ?_⟩
      intro p hp
      rcases mem_setKV_nodup _ _ _ _ hnd hp with h0 | ⟨hpin, hpne⟩
      · subst h0
        refine ⟨hemp, ?_⟩
        intro i hi
        obtain ⟨hin, hiid⟩ := (mem_removeSet _ _ _).mp hi
        rw [getKV_delKV_ne _ _ _ hiid]
        exact (hent (name, ids0) (getKV_mem _ _ _ ht)).2 i hin
      · obtain ⟨hne, hmem⟩ := hent p hpin
        refine ⟨hne, ?_⟩
        intro i hi
        have hiid : i ≠ id := by
          intro hc
          subst hc
          exact hside p hpin hpne hi
        rw [getKV_delKV_ne _ _ _ hiid]
        exact hmem i hi

theorem remove_subscription_topics_mem (b : Broadcaster) (name : String) (id : Nat)
    (p : String × List Nat)
    (hp : p ∈ ((b.remove_subscription name id).2).topics) (hne : p.1 ≠ name) :
    p ∈ b.topics := by
  revert hp
  rcases ht : getKV b.topics name with _ | ids0
  · intro hp
    have hp' : p ∈ b.topics := by
      have heq : ((b.remove_subscription name id).2).topics = b.topics := by
        show (match getKV b.topics name with
          | none => b.topics
          | some ids =>
            if removeSet ids id = [] then delKV b.topics name
            else setKV b.topics name (removeSet ids id)) = b.topics
        rw [ht]
      rw [heq] at hp
      exact hp
    exact hp'
  · intro hp
    have heq : ((b.remove_subscription name id).2).topics =
        (if removeSet ids0 id = [] then delKV b.topics name
         else setKV b.topics name (removeSet ids0 id)) := by
      show (match getKV b.topics name with
        | none => b.topics
        | some ids =>
          if removeSet ids id = [] then delKV b.topics name
          else setKV b.topics name (removeSet ids id)) = _
      rw [ht]
    rw [heq] at hp
    by_cases hemp : removeSet ids0 id = []
    · rw [if_pos hemp] at hp
      exact (mem_delKV _ _ _ hp).1
    · rw [if_neg hemp] at hp
      rcases mem_setKV_weak _ _ _ _ hp with h0 | h0
      · exfalso
        apply hne
        rw [h0]
      · exact h0

theorem remove_foldl_preserves (name : String) (l : List Nat) :
    ∀ b : Broadcaster, topicInvariant b →
      (∀ x ∈ l, ∀ p ∈ b.topics, p.1 ≠ name → x ∉ p.2) →
      topicInvariant
        (l.foldl (fun acc i => (acc.remove_subscription name i).2) b) := by
  induction l with
  | nil => intro b hinv _; exact hinv
  | cons a rest ih =>
    intro b hinv hside
    rw [List.foldl_cons]
    apply ih
    · exact remove_subscription_preserves_invariant b name a hinv
        (hside a (List.mem_cons_self a rest))
    · intro x hx p hp hpne
      exact hside x (List.mem_cons_of_mem a hx) p
        (remove_subscription_topics_mem b name a p hp hpne) hpne

theorem sendStep_isSome (res : CommandResponse)
    (acc : List (Nat × Subscription) × List Nat) (a x : Nat)
    (h : (getKV acc.1 x).isSome = true) :
    (getKV (sendStep res acc a).1 x).isSome = true := by
  unfold sendStep
  rcases ha : getKV acc.1 a with _ | s
  · exact h
  · by_cases hcl : s.closed
    · simp only [hcl, if_pos rfl]
      exact h
    · simp only [hcl, Bool.false_eq_true, if_false]
      exact isSome_getKV_setKV _ _ _ _ h

theorem sendStep_foldl_isSome (res : CommandResponse) (l : List Nat) :
    ∀ acc x, (getKV acc.1 x).isSome = true →
      (getKV (l.foldl (sendStep res) acc).1 x).isSome = true := by
  induction l with
  | nil => intro acc x h; exact h
  | cons a rest ih =>
    intro acc x h
    rw [List.foldl_cons]
    exact ih (sendStep res acc a) x (sendStep_isSome res acc a x h)

theorem sendStep_failed_subset (res : CommandResponse)
    (acc : List (Nat × Subscription) × List Nat) (a x : Nat)
    (h : x ∈ (sendStep res acc a).2) : x ∈ acc.2 ∨ x = a := by
  unfold sendStep at h
  rcases ha : getKV acc.1 a with _ | s
  · rw [ha] at h
    exact Or.inl h
  · rw [ha] at h
    by_cases hcl : s.closed
    · have h' : x ∈ acc.2 ++ [a] := by
        simp only [hcl, if_true] at h
        exact h
      rcases List.mem_append.mp h' with h0 | h0
      · exact Or.inl h0
      · right; simpa using h0
    · have h' : x ∈ acc.2 := by
        simp only [hcl, Bool.false_eq_true, if_false] at h
        exact h
      exact Or.inl h'

theorem sendStep_foldl_failed_subset (res : CommandResponse) (l : List Nat) :
    ∀ acc x, x ∈ (l.foldl (sendStep res) acc).2 → x ∈ acc.2 ∨ x ∈ l := by
  induction l with
  | nil => intro acc x h; left; exact h
  | cons a rest ih =>
    intro acc x h
    rw [List.foldl_cons] at h
    rcases ih (sendStep res acc a) x h with h0 | h0
    · rcases sendStep_failed_subset res acc a x h0 with h1 | h1
      · left; exact h1
      · right; rw [h1]; exact List.mem_cons_self a rest
    · right; exact List.mem_cons_of_mem a h0

/-- `publish` on an existing topic, spelled out. -/
theorem publish_state (b : Broadcaster) (name : String) (res : CommandResponse)
    (ids : List Nat) (ht : getKV b.topics name = some ids) :
    b.publish name res =
      (ids.foldl (sendStep res) (b.subscriptions, [])).2.foldl
        (fun acc id => (acc.remove_subscription name id).2)
        ⟨b.topics, (ids.foldl (sendStep res) (b.subscriptions, [])).1, b.nextId⟩ := by
  unfold Broadcaster.publish
  rw [ht]

theorem publish_preserves_invariant (b : Broadcaster) (name : String)
    (res : CommandResponse) (h : topicInvariant b)
    (hiso : ∀ p ∈ b.topics, ∀ q ∈ b.topics, p.1 ≠ q.1 → ∀ i ∈ p.2, i ∉ q.2) :
    topicInvariant (b.publish name res) := by
  rcases ht : getKV b.topics name with _ | ids
  · unfold Broadcaster.publish
    rw [ht]
    exact h
  · rw [publish_state b name res ids ht]
    apply remove_foldl_preserves
    · obtain ⟨hnd, hent⟩ := h
      refine ⟨hnd, ?_⟩
      intro p hp
      obtain ⟨hne, hmem⟩ := hent p hp
      exact ⟨hne, fun i hi =>
        sendStep_foldl_isSome res ids (b.subscriptions, []) i (hmem i hi)⟩
    · intro x hx p hp hpne
      have hxids : x ∈ ids := by
        rcases sendStep_foldl_failed_subset res ids (b.subscriptions, []) x hx
          with h0 | h0
        · cases h0
        · exact h0
      exact hiso (name, ids) (getKV_mem _ _ _ ht) p hp
        (fun hc => hpne hc.symm) x hxids

/-- `remove_subscription` of the last id of a topic removes the topic
entry itself. -/
theorem remove_last_removes_topic (b : Broadcaster) (name : String) (id : Nat)
    (h : getKV b.topics name = some [id]) :
    getKV ((b.remove_subscription name id).2).topics name = none := by
  have htop : ((b.remove_subscription name id).2).topics =
      (if removeSet [id] id = [] then delKV b.topics name
       else setKV b.topics name (removeSet [id] id)) := by
    show (match getKV b.topics name with
      | none => b.topics
      | some ids =>
        if removeSet ids id = [] then delKV b.topics name
        else setKV b.topics name (removeSet ids id)) = _
    rw [h]
  rw [htop, if_pos (by simp [removeSet])]
  exact getKV_delKV_self _ _

/-- Counterexample to C7 as stated: `remove_subscription` called with a
topic name that does not match the id's topic removes the id from
`subscriptions` but leaves it in its topic's set, breaking the
invariant.  Concretely: subscribe id 1 to "lobby", then
`remove_subscription("other", 1)`. -/
theorem broadcaster_invariant_counterexample :
    topicInvariant ((Broadcaster.fresh.subscribe "lobby").2) ∧
    ¬topicInvariant
      (((Broadcaster.fresh.subscribe "lobby").2).remove_subscription "other" 1).2 := by
  constructor
  · exact ⟨by decide, by decide⟩
  · intro h
    have h1 := (h.2 ("lobby", [1]) (by decide)).2 1 (by decide)
    rw [show getKV
        ((((Broadcaster.fresh.subscribe "lobby").2).remove_subscription
          "other" 1).2).subscriptions 1 = none by decide] at h1
    cases h1

/-- **C7 (amended).** `subscribe` preserves the broadcaster invariant
unconditionally; `remove_subscription(name, id)` preserves it provided
`id` does not appear in any topic other than `name` (in particular when
called with the topic the id subscribed to); `publish` — whose reaped
ids all lie in the published topic's set — preserves it provided no id
is shared between two distinct topics; and removing the last id of a
topic removes the topic entry itself, so the named topic never remains
with an empty subscriber set. -/
theorem broadcaster_invariant_preservation :
    (∀ (b : Broadcaster) (name : String), topicInvariant b →
      topicInvariant (b.subscribe name).2) ∧
    (∀ (b : Broadcaster) (name : String) (id : Nat), topicInvariant b →
      (∀ p ∈ b.topics, p.1 ≠ name → id ∉ p.2) →
      topicInvariant (b.remove_subscription name id).2) ∧
    (∀ (b : Broadcaster) (name : String) (res : CommandResponse), topicInvariant b →
      (∀ p ∈ b.topics, ∀ q ∈ b.topics, p.1 ≠ q.1 → ∀ i ∈ p.2, i ∉ q.2) →
      topicInvariant (b.publish name res)) ∧
    (∀ (b : Broadcaster) (name : String) (id : Nat),
      getKV b.topics name = some [id] →
      getKV ((b.remove_subscription name id).2).topics name = none) :=
  ⟨subscribe_preserves_invariant, remove_subscription_preserves_invariant,
   publish_preserves_invariant, remove_last_removes_topic⟩

/-- Witness for the amended C7 at concrete states: the invariant holds
after a subscribe, still holds after a matching unsubscribe, and the
emptied topic entry is gone. -/
theorem broadcaster_invariant_preservation_witness :
    topicInvariant ((Broadcaster.fresh.subscribe "lobby").2) ∧
    topicInvariant
      (((Broadcaster.fresh.subscribe "lobby").2).remove_subscription "lobby" 1).2 ∧
    getKV ((((Broadcaster.fresh.subscribe "lobby").2).remove_subscription
      "lobby" 1).2).topics "lobby" = none := by
  have hfresh : topicInvariant Broadcaster.fresh := ⟨by decide, by decide⟩
  have h1 : topicInvariant ((Broadcaster.fresh.subscribe "lobby").2) :=
    broadcaster_invariant_preservation.1 Broadcaster.fresh "lobby" hfresh
  refine ⟨h1, ?_, ?_⟩
  · exact broadcaster_invariant_preservation.2.1 _ "lobby" 1 h1 (by decide)
  · exact broadcaster_invariant_preservation.2.2.2 _ "lobby" 1 (by decide)

end Kvdb
